import Mathlib

/-
Verification of the data-cleaning and aggregation pipeline of final.py
(Los Angeles crime-data dashboard).

The tabular data is embedded shallowly: a dataframe is a list of records,
a record is a structure whose loaded columns are Option-valued (None/NaN
is none), and each pandas statement of final.py (lines 85-114 for the
cleaner, and the per-chart aggregation lines) becomes one Lean definition
on lists.  value_counts is modelled as counting distinct values in
first-encountered order followed by a stable sort on descending count;
drop_duplicates (keep="first", the pandas default) is modelled by
dedupFirst below.
-/

namespace CrimeDash

/-- Model of drop_duplicates keep="first": scan left to right, keeping an
element only if it has not been seen before.  seen accumulates the
elements already kept. -/
def dedupSeen {α : Type} [DecidableEq α] (seen : List α) : List α → List α
  | [] => []
  | a :: l => if a ∈ seen then dedupSeen seen l else a :: dedupSeen (a :: seen) l

/-- Model of pandas drop_duplicates with the default keep="first". -/
def dedupFirst {α : Type} [DecidableEq α] (l : List α) : List α :=
  dedupSeen [] l

theorem mem_dedupSeen {α : Type} [DecidableEq α] (l : List α) :
    ∀ (seen : List α) (x : α), x ∈ dedupSeen seen l ↔ x ∈ l ∧ x ∉ seen := by
  induction l with
  | nil => intro seen x; simp [dedupSeen]
  | cons a l ih =>
    intro seen x
    by_cases ha : a ∈ seen
    · rw [dedupSeen, if_pos ha, ih seen x]
      constructor
      · rintro ⟨hx, hs⟩
        exact ⟨List.mem_cons_of_mem _ hx, hs⟩
      · rintro ⟨hx, hs⟩
        rcases List.mem_cons.mp hx with rfl | hx
        · exact absurd ha hs
        · exact ⟨hx, hs⟩
    · rw [dedupSeen, if_neg ha]
      constructor
      · intro hx
        rcases List.mem_cons.mp hx with rfl | hx
        · exact ⟨List.mem_cons_self x l, ha⟩
        · obtain ⟨h1, h2⟩ := (ih (a :: seen) x).mp hx
          exact ⟨List.mem_cons_of_mem _ h1, fun h => h2 (List.mem_cons_of_mem _ h)⟩
      · rintro ⟨hx, hs⟩
        rcases List.mem_cons.mp hx with rfl | hx
        · exact List.mem_cons_self x _
        · by_cases hxa : x = a
          · subst hxa
            exact List.mem_cons_self x _
          · refine List.mem_cons_of_mem _ ((ih (a :: seen) x).mpr ⟨hx, ?_⟩)
            intro h
            rcases List.mem_cons.mp h with h | h
            · exact hxa h
            · exact hs h

theorem mem_dedupFirst {α : Type} [DecidableEq α] {l : List α} {x : α} :
    x ∈ dedupFirst l ↔ x ∈ l := by
  rw [dedupFirst, mem_dedupSeen]
  simp

theorem dedupSeen_sublist {α : Type} [DecidableEq α] (l : List α) :
    ∀ seen : List α, List.Sublist (dedupSeen seen l) l := by
  induction l with
  | nil => intro seen; simp [dedupSeen]
  | cons a l ih =>
    intro seen
    by_cases ha : a ∈ seen
    · rw [dedupSeen, if_pos ha]
      exact (ih seen).cons a
    · rw [dedupSeen, if_neg ha]
      exact (ih (a :: seen)).cons₂ a

theorem dedupFirst_sublist {α : Type} [DecidableEq α] (l : List α) :
    List.Sublist (dedupFirst l) l :=
  dedupSeen_sublist l []

theorem nodup_dedupSeen {α : Type} [DecidableEq α] (l : List α) :
    ∀ seen : List α, (dedupSeen seen l).Nodup := by
  induction l with
  | nil => intro seen; simp [dedupSeen]
  | cons a l ih =>
    intro seen
    by_cases ha : a ∈ seen
    · rw [dedupSeen, if_pos ha]; exact ih seen
    · rw [dedupSeen, if_neg ha]
      refine List.Nodup.cons ?_ (ih (a :: seen))
      intro hmem
      exact ((mem_dedupSeen l (a :: seen) a).mp hmem).2 (List.mem_cons_self a seen)

theorem nodup_dedupFirst {α : Type} [DecidableEq α] (l : List α) :
    (dedupFirst l).Nodup :=
  nodup_dedupSeen l []

theorem dedupSeen_eq_self {α : Type} [DecidableEq α] (l : List α) :
    ∀ seen : List α, l.Nodup → (∀ x ∈ l, x ∉ seen) → dedupSeen seen l = l := by
  induction l with
  | nil => intro seen _ _; rfl
  | cons a l ih =>
    intro seen hnd hs
    rw [dedupSeen, if_neg (hs a (List.mem_cons_self a l))]
    congr 1
    refine ih (a :: seen) (List.Nodup.of_cons hnd) ?_
    intro x hx hmem
    rcases List.mem_cons.mp hmem with rfl | h
    · exact (List.nodup_cons.mp hnd).1 hx
    · exact hs x (List.mem_cons_of_mem _ hx) h

theorem dedupFirst_eq_self {α : Type} [DecidableEq α] {l : List α} (h : l.Nodup) :
    dedupFirst l = l :=
  dedupSeen_eq_self l [] h (by simp)

/-- Keep-first order preservation: if the first occurrence of a comes before
the first occurrence of b, then a comes before b in the deduplicated list. -/
theorem pair_sublist_dedupSeen {α : Type} [DecidableEq α] (l : List α) :
    ∀ (seen : List α) (a b : α), a ∈ l → b ∈ l → a ∉ seen → b ∉ seen →
      l.indexOf a < l.indexOf b → List.Sublist [a, b] (dedupSeen seen l) := by
  induction l with
  | nil => intro seen a b ha _ _ _ _; cases ha
  | cons c l ih =>
    intro seen a b ha hb hsa hsb hab
    by_cases hac : a = c
    · subst hac
      have hba : b ≠ a := by
        intro h
        subst h
        exact lt_irrefl _ hab
      have hbl : b ∈ l := by
        rcases List.mem_cons.mp hb with h | h
        · exact absurd h hba
        · exact h
      rw [dedupSeen, if_neg hsa]
      refine List.Sublist.cons₂ a (List.singleton_sublist.mpr ?_)
      refine (mem_dedupSeen l (a :: seen) b).mpr ⟨hbl, ?_⟩
      intro h
      rcases List.mem_cons.mp h with h | h
      · exact hba h
      · exact hsb h
    · have hbc : b ≠ c := by
        intro h
        subst h
        rw [List.indexOf_cons_self] at hab
        exact Nat.not_lt_zero _ hab
      have hal : a ∈ l := by
        rcases List.mem_cons.mp ha with h | h
        · exact absurd h hac
        · exact h
      have hbl : b ∈ l := by
        rcases List.mem_cons.mp hb with h | h
        · exact absurd h hbc
        · exact h
      have hab' : l.indexOf a < l.indexOf b := by
        rw [List.indexOf_cons_ne _ (Ne.symm hac), List.indexOf_cons_ne _ (Ne.symm hbc)] at hab
        exact Nat.lt_of_succ_lt_succ hab
      by_cases hc : c ∈ seen
      · rw [dedupSeen, if_pos hc]
        exact ih seen a b hal hbl hsa hsb hab'
      · rw [dedupSeen, if_neg hc]
        refine List.Sublist.cons c ?_
        refine ih (c :: seen) a b hal hbl ?_ ?_ hab'
        · intro h
          rcases List.mem_cons.mp h with h | h
          · exact hac h
          · exact hsa h
        · intro h
          rcases List.mem_cons.mp h with h | h
          · exact hbc h
          · exact hsb h

theorem pair_sublist_dedupFirst {α : Type} [DecidableEq α] {l : List α} {a b : α}
    (ha : a ∈ l) (hb : b ∈ l) (hab : l.indexOf a < l.indexOf b) :
    List.Sublist [a, b] (dedupFirst l) :=
  pair_sublist_dedupSeen l [] a b ha hb (by simp) (by simp) hab

/-! ### Data model

One row of the loaded table (load_data, final.py lines 19-25, usecols =
DATE OCC, TIME OCC, AREA NAME, Crm Cd Desc, Vict Age, Vict Sex,
Status Desc, LAT, LON, Weapon Desc).  A missing value (NaN) is none.
The DATE OCC column holds the outcome of pd.to_datetime(errors="coerce")
(none = NaT, unparsable text), and TIME OCC holds the outcome of
pd.to_numeric(errors="coerce") (none = NaN, non-numeric text): text
parsing itself happens inside the pandas library, so the embedding starts
from the parse outcome. -/

/-- A parsed calendar date (the value of a non-NaT DATE OCC cell). -/
structure CalDate where
  year : Int
  month : Int
  day : Int
deriving DecidableEq

/-- Weekday names as produced by Series.dt.day_name, indexed by Zeller
day code (0 = Saturday). -/
def dayNames : List String :=
  ["Saturday", "Sunday", "Monday", "Tuesday", "Wednesday", "Thursday", "Friday"]

/-- Zeller congruence day code of a Gregorian date. -/
def dayCode (d : CalDate) : Int :=
  let y := if d.month < 3 then d.year - 1 else d.year
  let m := if d.month < 3 then d.month + 12 else d.month
  (d.day + (13 * (m + 1)) / 5 + y + y / 4 - y / 100 + y / 400) % 7

/-- Model of Series.dt.day_name for one date. -/
def day_name (d : CalDate) : String :=
  dayNames.getD (dayCode d).toNat ""

/-- One row of the loaded dataframe (the nine projected columns plus
weapon description; all nullable). -/
structure RawRecord where
  date_occ : Option CalDate
  time_occ : Option Int
  area_name : Option String
  crm_cd_desc : Option String
  vict_age : Option Int
  vict_sex : Option String
  status_desc : Option String
  lat : Option Rat
  lon : Option Rat
  weapon_desc : Option String
deriving DecidableEq

/-- One row of the working dataframe df_clean: the loaded columns plus the
derived columns year, month, day_of_week (lines 92-94) and hour (line 98).
Derived columns are none until the corresponding assignment has run. -/
structure Row extends RawRecord where
  year : Option Int
  month : Option Int
  day_of_week : Option String
  hour : Option Int
deriving DecidableEq

/-- df_clean = df.copy() (line 85): the working row before any derived
column exists. -/
def initRow (r : RawRecord) : Row :=
  { r with year := none, month := none, day_of_week := none, hour := none }

/-- Lines 92-94: extract year, month and day-of-week name from the parsed
date. -/
def addTemporal (r : Row) : Row :=
  { r with
    year := r.date_occ.map (fun d => d.year)
    month := r.date_occ.map (fun d => d.month)
    day_of_week := r.date_occ.map day_name }

/-- Line 98: hour = TIME OCC // 100 (pandas floor division, nullable
Int64 result; NaN time gives missing hour). -/
def addHour (r : Row) : Row :=
  { r with hour := r.time_occ.map (fun t => Int.fdiv t 100) }

/-- Pandas comparison series != c: NaN != c evaluates to True. -/
def optNe (x : Option Rat) (c : Rat) : Bool :=
  match x with
  | some v => decide (v ≠ c)
  | none => true

/-- Pandas Series.between(lo, hi) (inclusive): NaN gives False. -/
def optBetween (x : Option Rat) (lo hi : Rat) : Bool :=
  match x with
  | some v => decide (lo ≤ v ∧ v ≤ hi)
  | none => false

/-- Line 111: the critical columns AREA NAME, Crm Cd Desc, Vict Sex,
Status Desc are all present. -/
def critical_columns (r : Row) : Bool :=
  r.area_name.isSome && r.crm_cd_desc.isSome && r.vict_sex.isSome && r.status_desc.isSome

/-! ### The cleaning pipeline, one definition per pandas statement
(final.py lines 85-114). -/

/-- Lines 88-89: parse DATE OCC (outcome already carried by the field) and
dropna on it. -/
def df_clean1 (df : List RawRecord) : List Row :=
  (df.map initRow).filter (fun r => r.date_occ.isSome)

/-- Lines 92-94: derive year, month, day_of_week. -/
def df_clean2 (df : List RawRecord) : List Row :=
  (df_clean1 df).map addTemporal

/-- Lines 97-98: coerce TIME OCC to numeric (outcome already carried by
the field) and derive hour. -/
def df_clean3 (df : List RawRecord) : List Row :=
  (df_clean2 df).map addHour

/-- Line 101: dropna on LAT and LON. -/
def df_clean4 (df : List RawRecord) : List Row :=
  (df_clean3 df).filter (fun r => r.lat.isSome && r.lon.isSome)

/-- Line 102: keep rows with LAT != 0 and LON != 0. -/
def df_clean5 (df : List RawRecord) : List Row :=
  (df_clean4 df).filter (fun r => optNe r.lat 0 && optNe r.lon 0)

/-- Line 103: keep rows with LAT between 33 and 35 and LON between -119
and -117. -/
def df_clean6 (df : List RawRecord) : List Row :=
  (df_clean5 df).filter (fun r => optBetween r.lat 33 35 && optBetween r.lon (-119) (-117))

/-- Line 106: initial_count = len(df_clean) before drop_duplicates. -/
def initial_count (df : List RawRecord) : Nat :=
  (df_clean6 df).length

/-- Line 107: df_clean = df_clean.drop_duplicates(). -/
def df_clean7 (df : List RawRecord) : List Row :=
  dedupFirst (df_clean6 df)

/-- Line 108: duplicates_removed = initial_count - len(df_clean). -/
def duplicates_removed (df : List RawRecord) : Nat :=
  initial_count df - (df_clean7 df).length

/-- Line 112: initial_count_2 = len(df_clean) before the critical-column
dropna. -/
def initial_count_2 (df : List RawRecord) : Nat :=
  (df_clean7 df).length

/-- Line 113: df_clean = df_clean.dropna(subset=critical_columns); this is
the final CleanRecord collection. -/
def df_clean (df : List RawRecord) : List Row :=
  (df_clean7 df).filter critical_columns

/-- Line 114: missing_removed = initial_count_2 - len(df_clean). -/
def missing_removed (df : List RawRecord) : Nat :=
  initial_count_2 df - (df_clean df).length

/-! ### The nine cleaning steps as the specification words them
(spec section 4.2), to be compared with the source pipeline above. -/

/-- Spec step 1: parse occurrence_date; drop rows where parsing fails. -/
def specStep1 (df : List Row) : List Row :=
  df.filter (fun r => r.date_occ.isSome)

/-- Spec step 2: derive year, month, day_of_week from the parsed date. -/
def specStep2 (df : List Row) : List Row :=
  df.map addTemporal

/-- Spec step 3: coerce occurrence_time to numeric; rows where coercion
fails are kept (their coerced time is none).  In the embedding the field
already holds the coercion outcome, so this step moves no data. -/
def specStep3 (df : List Row) : List Row :=
  df

/-- Spec step 4: derive hour = integer division of the numeric time code
by 100. -/
def specStep4 (df : List Row) : List Row :=
  df.map addHour

/-- Spec step 5: drop rows with missing latitude or longitude. -/
def specStep5 (df : List Row) : List Row :=
  df.filter (fun r => r.lat.isSome && r.lon.isSome)

/-- Spec step 6: drop rows where latitude == 0 or longitude == 0. -/
def specStep6 (df : List Row) : List Row :=
  df.filter (fun r => optNe r.lat 0 && optNe r.lon 0)

/-- Spec step 7: drop rows with latitude outside [33, 35] or longitude
outside [-119, -117]. -/
def specStep7 (df : List Row) : List Row :=
  df.filter (fun r => optBetween r.lat 33 35 && optBetween r.lon (-119) (-117))

/-- Spec step 8: drop exact full-row duplicates (keeping first
occurrences). -/
def specStep8 (df : List Row) : List Row :=
  dedupFirst df

/-- Spec step 9: drop rows missing any of area_name, crime_description,
victim_sex, case_status. -/
def specStep9 (df : List Row) : List Row :=
  df.filter critical_columns

/-- The spec pipeline: the nine steps composed in the order the spec
lists them. -/
def specPipeline (df : List RawRecord) : List Row :=
  specStep9 (specStep8 (specStep7 (specStep6 (specStep5 (specStep4
    (specStep3 (specStep2 (specStep1 (df.map initRow)))))))))

/-! ### Per-row survival predicates and the enriched row, used to reason
about which input rows reach the CleanRecord collection. -/

/-- The fully derived row produced from one raw record by lines 85-98. -/
def enrichR (r : RawRecord) : Row :=
  addHour (addTemporal (initRow r))

/-- The conjunction of the row-level filters of lines 89 and 101-103
(date parse, coordinate presence, nonzero, bounding box). -/
def geo_filters (r : RawRecord) : Bool :=
  r.date_occ.isSome && (r.lat.isSome && r.lon.isSome) && (optNe r.lat 0 && optNe r.lon 0)
    && (optBetween r.lat 33 35 && optBetween r.lon (-119) (-117))

/-- All row-level filters of the cleaner: the geographic/date filters plus
the critical-column filter of line 113.  Duplicate removal is the only
cleaning step not covered, being a property of the whole collection. -/
def row_filters (r : RawRecord) : Bool :=
  geo_filters r
    && (r.area_name.isSome && r.crm_cd_desc.isSome && r.vict_sex.isSome && r.status_desc.isSome)

/-! ### Aggregators (final.py lines 138, 150, 162, 176, 187, 219-223,
245-246, 258).  Each consumes the cleaned table df_clean. -/

/-- The descending-count order used by value_counts to present frequency
tables. -/
def countGe (p q : String × Nat) : Prop :=
  q.2 ≤ p.2

instance : DecidableRel countGe :=
  fun p q => inferInstanceAs (Decidable (q.2 ≤ p.2))

instance : IsTotal (String × Nat) countGe :=
  ⟨fun a b => le_total b.2 a.2⟩

instance : IsTrans (String × Nat) countGe :=
  ⟨fun _ _ _ h1 h2 => le_trans h2 h1⟩

/-- Model of Series.value_counts (default dropna=True, applied after the
caller has extracted the non-missing values): each distinct value in
first-encountered order is paired with its number of occurrences, and the
pairs are sorted by count descending with a stable sort, so equal counts
keep first-encountered order. -/
def value_counts (l : List String) : List (String × Nat) :=
  List.insertionSort countGe ((dedupFirst l).map (fun v => (v, l.count v)))

/-- The non-missing values of the AREA NAME column. -/
def colArea (clean : List Row) : List String :=
  clean.filterMap (fun r => r.area_name)

/-- The non-missing values of the Crm Cd Desc column. -/
def colCrime (clean : List Row) : List String :=
  clean.filterMap (fun r => r.crm_cd_desc)

/-- The non-missing values of the Status Desc column. -/
def colStatus (clean : List Row) : List String :=
  clean.filterMap (fun r => r.status_desc)

/-- The non-missing values of the Weapon Desc column. -/
def colWeapon (clean : List Row) : List String :=
  clean.filterMap (fun r => r.weapon_desc)

/-- The non-missing values of the Vict Sex column. -/
def colSex (clean : List Row) : List String :=
  clean.filterMap (fun r => r.vict_sex)

/-- Line 138: area_crimes = df_clean["AREA NAME"].value_counts().head(10). -/
def area_crimes (clean : List Row) : List (String × Nat) :=
  (value_counts (colArea clean)).take 10

/-- Line 150: top_crimes = df_clean["Crm Cd Desc"].value_counts().head(10). -/
def top_crimes (clean : List Row) : List (String × Nat) :=
  (value_counts (colCrime clean)).take 10

/-- Line 162: status_counts = df_clean["Status Desc"].value_counts(). -/
def status_counts (clean : List Row) : List (String × Nat) :=
  value_counts (colStatus clean)

/-- Line 176: weapon_counts = df_clean["Weapon Desc"].value_counts().head(10);
rows with missing weapon are excluded by value_counts dropna. -/
def weapon_counts (clean : List Row) : List (String × Nat) :=
  (value_counts (colWeapon clean)).take 10

/-- A deterministic pseudo-random key stream (linear congruential
generator), standing in for the numpy bit generator that
DataFrame.sample(random_state=42) constructs from its seed; the library
generator is outside the repository, but like it, this one is a pure
function of the seed. -/
def lcg (s : Nat) : Nat :=
  (1103515245 * s + 12345) % 2147483648

/-- Key assigned to position i of the sampled frame under the given seed. -/
def sampleKey (seed i : Nat) : Nat :=
  lcg (lcg (seed + 1) + i)

/-- Model of DataFrame.sample(n, random_state=seed): order the rows by the
pseudo-random key of their position and keep the first n.  A pure function
of the list, n and the seed. -/
def sampleSelect {α : Type} (l : List α) (n seed : Nat) : List α :=
  ((List.insertionSort (fun p q : Nat × α => sampleKey seed p.1 ≤ sampleKey seed q.1)
    l.enum).take n).map (fun p => p.2)

/-- Line 187: map_sample = df_clean.sample(n=min(5000, len(df_clean)),
random_state=42). -/
def map_sample (clean : List Row) : List Row :=
  sampleSelect clean (min 5000 clean.length) 42

/-- Line 219: top_5_crimes = df_clean["Crm Cd Desc"].value_counts().head(5).index. -/
def top_5_crimes (clean : List Row) : List String :=
  ((value_counts (colCrime clean)).take 5).map Prod.fst

/-- One cell of pd.crosstab(df_clean["AREA NAME"], df_clean["Crm Cd Desc"]):
the number of rows carrying this area and this crime description (rows
where either is missing never match). -/
def ctCount (clean : List Row) (a c : String) : Nat :=
  (clean.filter (fun r => decide (r.area_name = some a ∧ r.crm_cd_desc = some c))).length

/-- The row index of the crosstab (line 222): the distinct area names in
sorted order, as pd.crosstab sorts its group keys. -/
def crosstabIndex (clean : List Row) : List String :=
  List.insertionSort (fun a b : String => a ≤ b) (dedupFirst (colArea clean))

/-- Line 223: top_crimes_by_area = crime_by_area[top_5_crimes] — the
crosstab restricted to the five globally most frequent crime types, one
output row per area. -/
def top_crimes_by_area (clean : List Row) : List (String × List (String × Nat)) :=
  (crosstabIndex clean).map (fun a => (a, (top_5_crimes clean).map (fun c => (c, ctCount clean a c))))

/-- Lines 245-246: age_data = df_clean["Vict Age"].dropna() restricted to
0 < age < 100 (both strict); the sample handed to the histogram. -/
def age_data (clean : List Row) : List Int :=
  (clean.filterMap (fun r => r.vict_age)).filter (fun a => decide (0 < a ∧ a < 100))

/-- Line 258: victim_sex = df_clean["Vict Sex"].value_counts(). -/
def victim_sex (clean : List Row) : List (String × Nat) :=
  value_counts (colSex clean)

/-! ### Structural lemmas about the pipeline. -/

theorem enrichR_toRaw (r : RawRecord) : (enrichR r).toRawRecord = r :=
  rfl

theorem enrichR_inj : Function.Injective enrichR := by
  intro a b h
  have h2 := congrArg Row.toRawRecord h
  simpa [enrichR_toRaw] using h2

/-- Normal form of the pipeline up to the bounding-box filter: filter the
raw rows by the row-level date and coordinate conditions, then derive. -/
theorem df_clean6_eq (df : List RawRecord) :
    df_clean6 df = (df.filter geo_filters).map enrichR := by
  unfold df_clean6 df_clean5 df_clean4 df_clean3 df_clean2 df_clean1
  simp only [List.map_map, List.filter_map, List.filter_filter]
  have hmap : (addHour ∘ addTemporal ∘ initRow) = enrichR := rfl
  rw [hmap]
  congr 1
  refine List.filter_congr ?_
  intro x _
  simp only [Function.comp_apply, enrichR, addHour, addTemporal, initRow, geo_filters]
  rw [Bool.eq_iff_iff]
  simp only [Bool.and_eq_true]
  tauto

/-- A raw row that passes every row-level filter reaches the CleanRecord
collection (duplicate removal only removes repeated copies, never the
first one). -/
theorem mem_df_clean_of_filters {df : List RawRecord} {r : RawRecord}
    (hmem : r ∈ df) (hf : row_filters r = true) : enrichR r ∈ df_clean df := by
  simp only [row_filters, Bool.and_eq_true] at hf
  obtain ⟨hgeo, hcrit4⟩ := hf
  have hcrit : critical_columns (enrichR r) = true := by
    show (r.area_name.isSome && r.crm_cd_desc.isSome && r.vict_sex.isSome
      && r.status_desc.isSome) = true
    simp only [Bool.and_eq_true]
    exact hcrit4
  have h6 : enrichR r ∈ df_clean6 df := by
    rw [df_clean6_eq]
    exact List.mem_map_of_mem _ (List.mem_filter.mpr ⟨hmem, hgeo⟩)
  have h7 : enrichR r ∈ df_clean7 df := mem_dedupFirst.mpr h6
  exact List.mem_filter.mpr ⟨h7, hcrit⟩

/-- Every CleanRecord row is present just after the hour derivation. -/
theorem mem_df_clean3_of_mem_df_clean {df : List RawRecord} {r : Row}
    (h : r ∈ df_clean df) : r ∈ df_clean3 df := by
  unfold df_clean at h
  have h7 := (List.mem_filter.mp h).1
  unfold df_clean7 at h7
  have h6 := mem_dedupFirst.mp h7
  unfold df_clean6 at h6
  have h5 := (List.mem_filter.mp h6).1
  unfold df_clean5 at h5
  have h4 := (List.mem_filter.mp h5).1
  unfold df_clean4 at h4
  exact (List.mem_filter.mp h4).1

theorem length_eq_sum_count {α : Type} [DecidableEq α] (l : List α) :
    ∑ x ∈ l.toFinset, l.count x = l.length := by
  have h := Multiset.toFinset_sum_count_eq (↑l : Multiset α)
  rw [Multiset.coe_card] at h
  rw [← h]
  exact Finset.sum_congr rfl (fun x _ => (Multiset.coe_count x l).symm)

/-- Deduplicating a list that contains exactly one value twice and every
other value at most once removes exactly one element. -/
theorem length_dedupFirst_single_dup {α : Type} [DecidableEq α] (l : List α) (a : α)
    (h2 : l.count a = 2) (h1 : ∀ x, x ≠ a → l.count x ≤ 1) :
    l.length = (dedupFirst l).length + 1 := by
  have hmem : a ∈ l := by
    rw [← List.count_pos_iff]
    omega
  have hts : (dedupFirst l).toFinset = l.toFinset := by
    ext x
    simp [List.mem_toFinset, mem_dedupFirst]
  have hlen : (dedupFirst l).length = l.toFinset.card := by
    rw [← List.toFinset_card_of_nodup (nodup_dedupFirst l), hts]
  have hsum : ∑ x ∈ l.toFinset, l.count x = l.length := length_eq_sum_count l
  have hat : a ∈ l.toFinset := List.mem_toFinset.mpr hmem
  have hsplit : l.count a + ∑ x ∈ l.toFinset.erase a, l.count x
      = ∑ x ∈ l.toFinset, l.count x :=
    Finset.add_sum_erase _ (fun x => l.count x) hat
  have herase : ∑ x ∈ l.toFinset.erase a, l.count x = (l.toFinset.erase a).card := by
    rw [Finset.card_eq_sum_ones]
    refine Finset.sum_congr rfl ?_
    intro x hx
    obtain ⟨hxa, hxl⟩ := Finset.mem_erase.mp hx
    have hge : 0 < l.count x := List.count_pos_iff.mpr (List.mem_toFinset.mp hxl)
    have hle := h1 x hxa
    omega
  have hcard : (l.toFinset.erase a).card = l.toFinset.card - 1 :=
    Finset.card_erase_of_mem hat
  have hcardpos : 1 ≤ l.toFinset.card := Finset.card_pos.mpr ⟨a, hat⟩
  have key : l.length = 2 + (l.toFinset.card - 1) := by
    rw [← hsum, ← hsplit, h2, herase, hcard]
  omega

/-- A pair that is a sublist of a duplicate-free list stays a sublist of
any prefix containing the second component. -/
theorem pair_sublist_take {α : Type} (l : List α) (x y : α) :
    ∀ n : Nat, l.Nodup → List.Sublist [x, y] l → y ∈ l.take n →
      List.Sublist [x, y] (l.take n) := by
  induction l with
  | nil => intro n _ _ hy; simp at hy
  | cons c t ih =>
    intro n hnd hs hy
    cases n with
    | zero => simp at hy
    | succ m =>
      rw [List.take_succ_cons] at hy ⊢
      cases hs with
      | cons₂ _ h =>
        have hyt : y ∈ t := List.singleton_sublist.mp h
        have hyc : y ≠ x := by
          rintro rfl
          exact (List.nodup_cons.mp hnd).1 hyt
        have hy2 : y ∈ List.take m t := by
          rcases List.mem_cons.mp hy with rfl | h2
          · exact absurd rfl hyc
          · exact h2
        exact List.Sublist.cons₂ x (List.singleton_sublist.mpr hy2)
      | cons _ h =>
        have hyt : y ∈ t := h.subset (by simp)
        have hyc : y ≠ c := by
          rintro rfl
          exact (List.nodup_cons.mp hnd).1 hyt
        have hy2 : y ∈ List.take m t := by
          rcases List.mem_cons.mp hy with rfl | h2
          · exact absurd rfl hyc
          · exact h2
        exact List.Sublist.cons c (ih m (List.nodup_cons.mp hnd).2 h hy2)

/-! ### Lemmas about value_counts. -/

theorem value_counts_perm (keys : List String) :
    List.Perm (value_counts keys) ((dedupFirst keys).map (fun v => (v, keys.count v))) :=
  List.perm_insertionSort countGe _

theorem mem_value_counts {keys : List String} {p : String × Nat}
    (h : p ∈ value_counts keys) : p.1 ∈ keys ∧ p.2 = keys.count p.1 := by
  have h2 := (value_counts_perm keys).mem_iff.mp h
  obtain ⟨v, hv, he⟩ := List.mem_map.mp h2
  cases he
  exact ⟨mem_dedupFirst.mp hv, rfl⟩

theorem nodup_value_counts (keys : List String) : (value_counts keys).Nodup := by
  refine (value_counts_perm keys).symm.nodup ?_
  refine List.Nodup.map ?_ (nodup_dedupFirst keys)
  intro a b h
  exact congrArg Prod.fst h

theorem sorted_value_counts (keys : List String) :
    (value_counts keys).Pairwise countGe :=
  List.sorted_insertionSort countGe _

/-- Stability of a truncated frequency table: two entries with equal
counts appear in first-encountered order of their values. -/
theorem value_counts_take_stable {keys : List String} {n : Nat} {a b : String} {ca cb : Nat}
    (ha : (a, ca) ∈ (value_counts keys).take n) (hb : (b, cb) ∈ (value_counts keys).take n)
    (hc : ca = cb) (hidx : keys.indexOf a < keys.indexOf b) :
    List.Sublist [(a, ca), (b, cb)] ((value_counts keys).take n) := by
  have ha2 := List.mem_of_mem_take ha
  have hb2 := List.mem_of_mem_take hb
  obtain ⟨hak, hca⟩ := mem_value_counts ha2
  obtain ⟨hbk, hcb⟩ := mem_value_counts hb2
  have hak2 : a ∈ keys := hak
  have hbk2 : b ∈ keys := hbk
  have hca2 : ca = keys.count a := hca
  have hcb2 : cb = keys.count b := hcb
  have hd : List.Sublist [a, b] (dedupFirst keys) :=
    pair_sublist_dedupFirst hak2 hbk2 hidx
  have hm : List.Sublist [(a, keys.count a), (b, keys.count b)]
      ((dedupFirst keys).map (fun v => (v, keys.count v))) := by
    have h3 := List.Sublist.map (fun v => (v, keys.count v)) hd
    simpa using h3
  rw [← hca2, ← hcb2] at hm
  have hge : countGe (a, ca) (b, cb) := le_of_eq hc.symm
  have hvc : List.Sublist [(a, ca), (b, cb)] (value_counts keys) :=
    List.pair_sublist_insertionSort hge hm
  exact pair_sublist_take _ _ _ n (nodup_value_counts keys) hvc hb

/-! ### Concrete records used by the witnesses. -/

/-- A concrete raw record that passes every filter. -/
def rawA : RawRecord :=
  { date_occ := some ⟨2021, 5, 3⟩, time_occ := some 2500, area_name := some "Central",
    crm_cd_desc := some "ROBBERY", vict_age := some 150, vict_sex := some "M",
    status_desc := some "IC", lat := some 34, lon := some (-118),
    weapon_desc := some "GUN" }

/-- A second concrete raw record, also passing every filter, with a
different area. -/
def rawB : RawRecord :=
  { rawA with area_name := some "Hollywood", time_occ := some 915, vict_age := some 25 }

/-! ### The claims. -/

/-- C1: every record of the CleanRecord collection produced by the cleaner
has latitude in [33, 35] and longitude in [-119, -117], neither coordinate
exactly zero, and none of area_name, crime_description, victim_sex,
case_status missing — for every input collection, by construction. -/
theorem C1_clean_invariants (df : List RawRecord) (r : Row) (h : r ∈ df_clean df) :
    (∃ la, r.lat = some la ∧ 33 ≤ la ∧ la ≤ 35 ∧ la ≠ 0) ∧
    (∃ lo, r.lon = some lo ∧ -119 ≤ lo ∧ lo ≤ -117 ∧ lo ≠ 0) ∧
    r.area_name.isSome = true ∧ r.crm_cd_desc.isSome = true ∧
    r.vict_sex.isSome = true ∧ r.status_desc.isSome = true := by
  unfold df_clean at h
  obtain ⟨h7, hcrit⟩ := List.mem_filter.mp h
  unfold df_clean7 at h7
  have h6 := mem_dedupFirst.mp h7
  unfold df_clean6 at h6
  obtain ⟨h5, hbox⟩ := List.mem_filter.mp h6
  unfold df_clean5 at h5
  obtain ⟨_, hne⟩ := List.mem_filter.mp h5
  simp only [Bool.and_eq_true] at hbox hne
  obtain ⟨hbla, hblo⟩ := hbox
  obtain ⟨hnla, hnlo⟩ := hne
  simp only [critical_columns, Bool.and_eq_true] at hcrit
  obtain ⟨⟨⟨hA, hC⟩, hS⟩, hSt⟩ := hcrit
  refine ⟨?_, ?_, hA, hC, hS, hSt⟩
  · cases hla : r.lat with
    | none => rw [hla] at hbla; simp [optBetween] at hbla
    | some v =>
      rw [hla] at hbla hnla
      simp only [optBetween, decide_eq_true_eq] at hbla
      simp only [optNe, decide_eq_true_eq] at hnla
      exact ⟨v, rfl, hbla.1, hbla.2, hnla⟩
  · cases hlo : r.lon with
    | none => rw [hlo] at hblo; simp [optBetween] at hblo
    | some v =>
      rw [hlo] at hblo hnlo
      simp only [optBetween, decide_eq_true_eq] at hblo
      simp only [optNe, decide_eq_true_eq] at hnlo
      exact ⟨v, rfl, hblo.1, hblo.2, hnlo⟩

/-- Witness for C1 at a concrete one-row collection. -/
theorem C1_clean_invariants_witness :
    (∃ la, (enrichR rawA).lat = some la ∧ 33 ≤ la ∧ la ≤ 35 ∧ la ≠ 0) ∧
    (∃ lo, (enrichR rawA).lon = some lo ∧ -119 ≤ lo ∧ lo ≤ -117 ∧ lo ≠ 0) ∧
    (enrichR rawA).area_name.isSome = true ∧ (enrichR rawA).crm_cd_desc.isSome = true ∧
    (enrichR rawA).vict_sex.isSome = true ∧ (enrichR rawA).status_desc.isSome = true :=
  C1_clean_invariants [rawA] (enrichR rawA) (by decide)

/-- C2: the cleaner of final.py applies exactly the nine spec steps in the
spec order (with duplicate removal before the critical-column drop), and
the two reported removal counts are the deltas between the corresponding
consecutive stage sizes. -/
theorem C2_step_order (df : List RawRecord) :
    df_clean df = specPipeline df ∧
    duplicates_removed df =
      (specStep7 (specStep6 (specStep5 (specStep4 (specStep3 (specStep2
        (specStep1 (df.map initRow)))))))).length -
      (specStep8 (specStep7 (specStep6 (specStep5 (specStep4 (specStep3 (specStep2
        (specStep1 (df.map initRow))))))))).length ∧
    missing_removed df =
      (specStep8 (specStep7 (specStep6 (specStep5 (specStep4 (specStep3 (specStep2
        (specStep1 (df.map initRow))))))))).length -
      (specStep9 (specStep8 (specStep7 (specStep6 (specStep5 (specStep4 (specStep3
        (specStep2 (specStep1 (df.map initRow)))))))))).length :=
  ⟨rfl, rfl, rfl⟩

/-- C3: the time-coercion/hour step drops no row; for every cleaned row
the hour is the floor division of the coerced time code by 100 (missing
exactly when coercion failed), with no clamping, so time code 2500 gives
hour 25. -/
theorem C3_hour (df : List RawRecord) :
    (df_clean3 df).length = (df_clean1 df).length ∧
    (∀ r ∈ df_clean3 df, r.hour = r.time_occ.map (fun t => Int.fdiv t 100)) ∧
    (∀ r ∈ df_clean df, r.hour = r.time_occ.map (fun t => Int.fdiv t 100)) ∧
    (∀ r ∈ df_clean df, r.time_occ = some 2500 → r.hour = some 25) := by
  have key : ∀ r ∈ df_clean3 df, r.hour = r.time_occ.map (fun t => Int.fdiv t 100) := by
    intro r hr
    unfold df_clean3 at hr
    obtain ⟨s, _, rfl⟩ := List.mem_map.mp hr
    rfl
  refine ⟨?_, key, ?_, ?_⟩
  · unfold df_clean3 df_clean2
    simp [List.length_map]
  · intro r hr
    exact key r (mem_df_clean3_of_mem_df_clean hr)
  · intro r hr ht
    have h2 := key r (mem_df_clean3_of_mem_df_clean hr)
    rw [ht] at h2
    exact h2.trans (by decide)

/-- Witness for C3: a record with time code 2500 reaches the clean table
with hour 25. -/
theorem C3_hour_witness : (enrichR rawA).hour = some 25 :=
  (C3_hour [rawA]).2.2.2 (enrichR rawA) (by decide) (by decide)

/-- C4: on an empty CleanRecord collection every aggregator returns an
empty result. -/
theorem C4_empty_aggregates :
    area_crimes [] = [] ∧ top_crimes [] = [] ∧ status_counts [] = [] ∧
    weapon_counts [] = [] ∧ map_sample [] = [] ∧ top_crimes_by_area [] = [] ∧
    age_data [] = [] ∧ victim_sex [] = [] :=
  ⟨rfl, rfl, rfl, rfl, rfl, rfl, rfl, rfl⟩

/-- C5: the three top-10 frequency tables have at most 10 entries and are
sorted by count descending, and the weapons table only lists values that
occur as a present (non-missing) weapon description. -/
theorem C5_top10 (clean : List Row) :
    (area_crimes clean).length ≤ 10 ∧ List.Pairwise countGe (area_crimes clean) ∧
    (top_crimes clean).length ≤ 10 ∧ List.Pairwise countGe (top_crimes clean) ∧
    (weapon_counts clean).length ≤ 10 ∧ List.Pairwise countGe (weapon_counts clean) ∧
    (∀ p ∈ weapon_counts clean, ∃ r ∈ clean, r.weapon_desc = some p.1) := by
  refine ⟨List.length_take_le _ _,
    List.Pairwise.sublist (List.take_sublist _ _) (sorted_value_counts _),
    List.length_take_le _ _,
    List.Pairwise.sublist (List.take_sublist _ _) (sorted_value_counts _),
    List.length_take_le _ _,
    List.Pairwise.sublist (List.take_sublist _ _) (sorted_value_counts _), ?_⟩
  intro p hp
  have h2 := List.mem_of_mem_take hp
  obtain ⟨hk, _⟩ := mem_value_counts h2
  obtain ⟨r, hr, he⟩ := List.mem_filterMap.mp hk
  exact ⟨r, hr, he⟩

/-- Witness for C5: the key of a listed weapon is a weapon value present in
the collection. -/
theorem C5_top10_witness : ∃ r ∈ [enrichR rawA], r.weapon_desc = some "GUN" :=
  (C5_top10 [enrichR rawA]).2.2.2.2.2.2 ("GUN", 1) (by decide)

/-- C6: in each top-10 frequency table, and in the selection of the five
globally most frequent crime types, entries with equal counts appear in
the order in which their values first occur in the collection (the sort by
descending count is stable). -/
theorem C6_tie_order (clean : List Row) :
    (∀ a b c, (a, c) ∈ area_crimes clean → (b, c) ∈ area_crimes clean →
      (colArea clean).indexOf a < (colArea clean).indexOf b →
      List.Sublist [(a, c), (b, c)] (area_crimes clean)) ∧
    (∀ a b c, (a, c) ∈ top_crimes clean → (b, c) ∈ top_crimes clean →
      (colCrime clean).indexOf a < (colCrime clean).indexOf b →
      List.Sublist [(a, c), (b, c)] (top_crimes clean)) ∧
    (∀ a b c, (a, c) ∈ weapon_counts clean → (b, c) ∈ weapon_counts clean →
      (colWeapon clean).indexOf a < (colWeapon clean).indexOf b →
      List.Sublist [(a, c), (b, c)] (weapon_counts clean)) ∧
    (∀ a b, a ∈ top_5_crimes clean → b ∈ top_5_crimes clean →
      (colCrime clean).count a = (colCrime clean).count b →
      (colCrime clean).indexOf a < (colCrime clean).indexOf b →
      List.Sublist [a, b] (top_5_crimes clean)) := by
  refine ⟨?_, ?_, ?_, ?_⟩
  · intro a b c ha hb hidx
    exact value_counts_take_stable ha hb rfl hidx
  · intro a b c ha hb hidx
    exact value_counts_take_stable ha hb rfl hidx
  · intro a b c ha hb hidx
    exact value_counts_take_stable ha hb rfl hidx
  · intro a b ha hb hcnt hidx
    obtain ⟨pa, hpa, hea⟩ := List.mem_map.mp ha
    obtain ⟨pb, hpb, heb⟩ := List.mem_map.mp hb
    obtain ⟨x, y⟩ := pa
    obtain ⟨x2, y2⟩ := pb
    cases hea
    cases heb
    have hya : y = (colCrime clean).count x :=
      (mem_value_counts (List.mem_of_mem_take hpa)).2
    have hyb : y2 = (colCrime clean).count x2 :=
      (mem_value_counts (List.mem_of_mem_take hpb)).2
    rw [hya] at hpa
    rw [hyb] at hpb
    have hsub :=
      value_counts_take_stable hpa hpb (by rw [hcnt]) hidx
    have hmap := List.Sublist.map Prod.fst hsub
    simpa [top_5_crimes] using hmap

/-- Witness for C6 at a two-row collection with tied counts. -/
theorem C6_tie_order_witness :
    List.Sublist [("Central", 1), ("Hollywood", 1)]
      (area_crimes [enrichR rawA, enrichR rawB]) :=
  (C6_tie_order [enrichR rawA, enrichR rawB]).1 "Central" "Hollywood" 1
    (by decide) (by decide) (by decide)

/-- C7: the geo sample is a pure function of the collection and the fixed
seed 42 (two runs on the same collection give the same rows), has size
min(5000, collection size), and only contains rows of the collection. -/
theorem C7_geo_sample (clean : List Row) :
    map_sample clean = map_sample clean ∧
    (map_sample clean).length = min 5000 clean.length ∧
    (∀ r ∈ map_sample clean, r ∈ clean) := by
  refine ⟨rfl, ?_, ?_⟩
  · unfold map_sample sampleSelect
    rw [List.length_map, List.length_take, List.length_insertionSort, List.enum_length]
    rw [min_assoc, min_self]
  · intro r hr
    unfold map_sample sampleSelect at hr
    obtain ⟨p, hp, rfl⟩ := List.mem_map.mp hr
    have hp2 := List.mem_of_mem_take hp
    have hp3 := (List.perm_insertionSort _ _).mem_iff.mp hp2
    exact List.snd_mem_of_mem_enum hp3

/-- Witness for C7 at a one-row collection. -/
theorem C7_geo_sample_witness : enrichR rawA ∈ [enrichR rawA] :=
  (C7_geo_sample [enrichR rawA]).2.2 (enrichR rawA) (by decide)

/-- C8: no two CleanRecords are identical across all fields; and when the
input contains exactly one raw record twice (all fields equal), that
record passing every filter, while every other record occurs at most once,
then exactly one copy is kept and the reported duplicate count is 1. -/
theorem C8_dedup :
    (∀ df : List RawRecord, (df_clean df).Nodup) ∧
    (∀ (df : List RawRecord) (r : RawRecord), row_filters r = true →
      df.count r = 2 → (∀ x : RawRecord, x ≠ r → df.count x ≤ 1) →
      duplicates_removed df = 1 ∧ (df_clean df).count (enrichR r) = 1) := by
  constructor
  · intro df
    exact List.Nodup.filter _ (nodup_dedupFirst _)
  · intro df r hf h2 h1
    simp only [row_filters, Bool.and_eq_true] at hf
    have hgeo : geo_filters r = true := hf.1
    have hcrit : critical_columns (enrichR r) = true := by
      show (r.area_name.isSome && r.crm_cd_desc.isSome && r.vict_sex.isSome
        && r.status_desc.isSome) = true
      simp only [Bool.and_eq_true]
      exact hf.2
    have hc6 : (df_clean6 df).count (enrichR r) = 2 := by
      rw [df_clean6_eq, List.count_map_of_injective _ _ enrichR_inj,
        List.count_filter hgeo]
      exact h2
    have hother : ∀ y : Row, y ≠ enrichR r → (df_clean6 df).count y ≤ 1 := by
      intro y hy
      rw [df_clean6_eq]
      by_cases hmem : y ∈ (df.filter geo_filters).map enrichR
      · obtain ⟨x, _, rfl⟩ := List.mem_map.mp hmem
        have hxr : x ≠ r := fun hh => hy (by rw [hh])
        rw [List.count_map_of_injective _ _ enrichR_inj]
        calc (df.filter geo_filters).count x
            ≤ df.count x := (List.filter_sublist df).count_le x
          _ ≤ 1 := h1 x hxr
      · rw [List.count_eq_zero_of_not_mem hmem]
        omega
    have hlen := length_dedupFirst_single_dup (df_clean6 df) (enrichR r) hc6 hother
    have hdup : duplicates_removed df = 1 := by
      unfold duplicates_removed initial_count df_clean7
      omega
    refine ⟨hdup, ?_⟩
    have hmem7 : enrichR r ∈ df_clean7 df :=
      mem_dedupFirst.mpr (List.count_pos_iff.mp (by rw [hc6]; omega))
    have h71 : (df_clean7 df).count (enrichR r) = 1 :=
      List.count_eq_one_of_mem (nodup_dedupFirst _) hmem7
    unfold df_clean
    rw [List.count_filter hcrit]
    exact h71

/-- Witness for C8: two identical valid rows collapse to one, with
duplicate count 1. -/
theorem C8_dedup_witness :
    duplicates_removed [rawA, rawA] = 1 ∧
    (df_clean [rawA, rawA]).count (enrichR rawA) = 1 :=
  C8_dedup.2 [rawA, rawA] rawA (by decide) (by decide)
    (fun x hx => by simp [List.count_cons, List.count_nil, hx])

/-- C9: the age-histogram sample keeps only ages strictly between 0 and
100 (so 150 never reaches it); the cleaner itself never filters on
victim_age, and any input row passing the row-level filters reaches the
CleanRecord collection seen by every aggregator. -/
theorem C9_age :
    (∀ clean : List Row, ∀ a ∈ age_data clean, 0 < a ∧ a < 100) ∧
    (∀ clean : List Row, (150 : Int) ∉ age_data clean) ∧
    (∀ (r : RawRecord) (v : Option Int), row_filters { r with vict_age := v } = row_filters r) ∧
    (∀ (df : List RawRecord) (r : RawRecord), r ∈ df → row_filters r = true →
      enrichR r ∈ df_clean df) := by
  have hbound : ∀ clean : List Row, ∀ a ∈ age_data clean, 0 < a ∧ a < 100 := by
    intro clean a ha
    unfold age_data at ha
    have h2 := (List.mem_filter.mp ha).2
    simpa using h2
  refine ⟨hbound, ?_, ?_, ?_⟩
  · intro clean hmem
    have h2 := hbound clean 150 hmem
    omega
  · intro r v
    rfl
  · intro df r hmem hf
    exact mem_df_clean_of_filters hmem hf

/-- Witness for C9: the record with victim_age 150 reaches the CleanRecord
collection but its age is absent from the histogram sample. -/
theorem C9_age_witness :
    (150 : Int) ∉ age_data (df_clean [rawA]) ∧ enrichR rawA ∈ df_clean [rawA] :=
  ⟨C9_age.2.1 (df_clean [rawA]), C9_age.2.2.2 [rawA] rawA (by decide) (by decide)⟩

/-- C10: the cleaner only removes rows, never reorders them (the clean
table is a sublist of the enriched input in input order), and duplicate
removal keeps first occurrences: values whose first occurrences are
ordered stay in that order after deduplication. -/
theorem C10_order :
    (∀ df : List RawRecord, List.Sublist (df_clean df) (df.map enrichR)) ∧
    (∀ (l : List Row) (a b : Row), a ∈ l → b ∈ l → l.indexOf a < l.indexOf b →
      List.Sublist [a, b] (dedupFirst l)) := by
  constructor
  · intro df
    unfold df_clean df_clean7
    refine List.Sublist.trans (List.filter_sublist _) ?_
    refine List.Sublist.trans (dedupFirst_sublist _) ?_
    rw [df_clean6_eq]
    exact List.Sublist.map enrichR (List.filter_sublist df)
  · intro l a b ha hb hab
    exact pair_sublist_dedupFirst ha hb hab

/-- Witness for C10: deduplicating a list with a repeated first row keeps
the two distinct rows in first-occurrence order. -/
theorem C10_order_witness :
    List.Sublist [enrichR rawA, enrichR rawB]
      (dedupFirst [enrichR rawA, enrichR rawB, enrichR rawA]) :=
  C10_order.2 [enrichR rawA, enrichR rawB, enrichR rawA] (enrichR rawA) (enrichR rawB)
    (by decide) (by decide) (by decide)

end CrimeDash
